import Mathlib

/-!
Verification of the account-identifier library: the borrowed identifier
view (AccountIdRef) with its constructors and predicates, the validation
routine, and the owned identifier (AccountId).

Strings are embedded as lists of characters. Rust operates on the UTF-8
bytes of the text; for the validated alphabet (lowercase ASCII letters,
digits and the separators) bytes and characters coincide, and UTF-8 byte
order coincides with code-point order, so list-of-character equality and
lexicographic comparison model byte equality and byte-lexicographic
comparison of the underlying text.
-/

namespace NearAccountId

/-- Modelled from the spec: the error-kind taxonomy of the validation
routine (the validation module is not among the sources). -/
inductive ParseErrorKind where
  | TooShort
  | TooLong
  | InvalidChar
  | RedundantSeparator
deriving DecidableEq

/-- Modelled from the spec: the validation error, an error kind together
with an optional (byte offset, character) pair locating the first
offending position; absent for length violations. -/
structure ParseAccountError where
  kind : ParseErrorKind
  char : Option (Nat × Char)
deriving DecidableEq

/-- Shortest valid length for an account identifier. -/
def MIN_LEN : Nat := 2

/-- Longest valid length for an account identifier. -/
def MAX_LEN : Nat := 64

/-- The three separator characters of the identifier alphabet. -/
def isSeparator (c : Char) : Bool :=
  c = '-' || c = '_' || c = '.'

/-- Membership in the allowed alphabet: lowercase ASCII letter, ASCII
digit, or separator. -/
def isAllowedChar (c : Char) : Bool :=
  decide (('a' ≤ c ∧ c ≤ 'z') ∨ ('0' ≤ c ∧ c ≤ '9')) || isSeparator c

/-- Modelled from the spec: the character scan of the validation routine.
Single left-to-right pass over the remaining characters; i is the index of
the next character, len the total length, prevSep whether the previous
character was a separator. Character-class membership is checked before
separator placement, and the scan stops at the first violation. -/
def scanChars : List Char → Nat → Nat → Bool → Except ParseAccountError Unit
  | [], _, _, _ => Except.ok ()
  | c :: rest, i, len, prevSep =>
    if isAllowedChar c = false then
      Except.error ⟨ParseErrorKind.InvalidChar, some (i, c)⟩
    else if isSeparator c = true ∧ (i = 0 ∨ i = len - 1 ∨ prevSep = true) then
      Except.error ⟨ParseErrorKind.RedundantSeparator, some (i, c)⟩
    else
      scanChars rest (i + 1) len (isSeparator c)

/-- Modelled from the spec: validate(text). Length bounds are checked
wholesale first (no position reported), then the character scan runs. -/
def validate (s : List Char) : Except ParseAccountError Unit :=
  if s.length < MIN_LEN then
    Except.error ⟨ParseErrorKind.TooShort, none⟩
  else if s.length > MAX_LEN then
    Except.error ⟨ParseErrorKind.TooLong, none⟩
  else
    scanChars s 0 s.length false

/-- The borrowed identifier view: a wrapper around the text it validates.
Zero-copy aliasing is modelled by the wrapper holding the very list it was
given. -/
structure AccountIdRef where
  text : List Char
deriving DecidableEq

/-- AccountIdRef::new — validate, then wrap without copying. -/
def AccountIdRef.new (s : List Char) : Except ParseAccountError AccountIdRef :=
  match validate s with
  | Except.ok _ => Except.ok ⟨s⟩
  | Except.error e => Except.error e

/-- AccountIdRef::new_unchecked — wrap without any validation. The
debug_assert in the source is compiled out of release builds and is not
modelled. -/
def AccountIdRef.new_unchecked (s : List Char) : AccountIdRef :=
  ⟨s⟩

/-- AccountIdRef::as_str. -/
def AccountIdRef.as_str (v : AccountIdRef) : List Char :=
  v.text

/-- The text of the reserved system account. -/
def systemId : List Char := String.toList "system"

/-- AccountIdRef::is_system — text equality with the literal "system". -/
def AccountIdRef.is_system (v : AccountIdRef) : Bool :=
  v.text == systemId

/-- AccountIdRef::is_top_level. -/
def AccountIdRef.is_top_level (v : AccountIdRef) : Bool :=
  !v.is_system && !(v.text.contains '.')

/-- str::strip_suffix — remove the given suffix when present. -/
def stripSuffix (s suf : List Char) : Option (List Char) :=
  if suf.isSuffixOf s then some (s.take (s.length - suf.length)) else none

/-- AccountIdRef::is_sub_account_of — strip the parent text as a suffix,
then a '.', and require the remaining head to contain no further '.'. -/
def AccountIdRef.is_sub_account_of (self parent : AccountIdRef) : Bool :=
  match stripSuffix self.text parent.text with
  | none => false
  | some s =>
    match stripSuffix s ['.'] with
    | none => false
    | some s2 => !(s2.contains '.')

/-- A lowercase hexadecimal digit, matching the byte ranges of the source
(b'a'..=b'f' and b'0'..=b'9'). -/
def isLowerHexDigit (c : Char) : Bool :=
  decide (('a' ≤ c ∧ c ≤ 'f') ∨ ('0' ≤ c ∧ c ≤ '9'))

/-- AccountIdRef::is_implicit — exactly 64 characters, all lowercase hex. -/
def AccountIdRef.is_implicit (v : AccountIdRef) : Bool :=
  v.text.length == 64 && v.text.all isLowerHexDigit

/-- Modelled from the spec: the owned identifier (its defining file is not
among the sources); an independently owned copy of the validated text. -/
structure AccountId where
  text : List Char
deriving DecidableEq

/-- ToOwned for AccountIdRef — copy the text into an owned identifier. -/
def AccountIdRef.to_owned (v : AccountIdRef) : AccountId :=
  ⟨v.text⟩

/-- From a borrowed reference for AccountId — delegates to to_owned. -/
def AccountId.from_ref (v : AccountIdRef) : AccountId :=
  v.to_owned

/-- str comparison: byte-lexicographic order, which on UTF-8 text agrees
with character (code point) lexicographic order modelled here. -/
def strCmp : List Char → List Char → Ordering
  | [], [] => Ordering.eq
  | [], _ :: _ => Ordering.lt
  | _ :: _, [] => Ordering.gt
  | x :: xs, y :: ys =>
    if x < y then Ordering.lt else if y < x then Ordering.gt else strCmp xs ys

/-- The derived PartialEq on AccountIdRef — field-wise, i.e. text equality. -/
def AccountIdRef.beq (a b : AccountIdRef) : Bool :=
  a.text == b.text

/-- The derived Ord on AccountIdRef — field-wise, i.e. text comparison. -/
def AccountIdRef.cmp (a b : AccountIdRef) : Ordering :=
  strCmp a.text b.text

/-- PartialEq of AccountIdRef for String, str and string references — each
delegates to text equality with the wrapped field. -/
def eqStringRef (s : List Char) (a : AccountIdRef) : Bool :=
  s == a.text

/-- PartialEq of String, str and string references for AccountIdRef. -/
def eqRefString (a : AccountIdRef) (s : List Char) : Bool :=
  a.text == s

/-- PartialOrd of AccountIdRef for String, str and string references —
each delegates to str comparison against the wrapped field (partial_cmp on
str is total, so the Option layer is omitted). -/
def cmpStringRef (s : List Char) (a : AccountIdRef) : Ordering :=
  strCmp s a.text

/-- PartialOrd of String, str and string references for AccountIdRef. -/
def cmpRefString (a : AccountIdRef) (s : List Char) : Ordering :=
  strCmp a.text s

/-!  Helper lemmas shared by the claim theorems.  -/

/-- stripSuffix succeeds exactly on the splitting of the list at the
suffix. -/
theorem stripSuffix_eq_some {s suf r : List Char} :
    stripSuffix s suf = some r ↔ s = r ++ suf := by
  have htake : ∀ t : List Char, (t ++ suf).take ((t ++ suf).length - suf.length) = t := by
    intro t
    have hn : (t ++ suf).length - suf.length = t.length := by
      simp
    rw [hn]
    exact List.take_left t suf
  constructor
  · intro h
    unfold stripSuffix at h
    split at h
    · rename_i hsuf
      obtain ⟨t, ht⟩ := List.isSuffixOf_iff_suffix.mp hsuf
      rw [← ht, htake t] at h
      injection h with h
      subst h
      exact ht.symm
    · simp at h
  · intro h
    subst h
    unfold stripSuffix
    rw [if_pos (List.isSuffixOf_iff_suffix.mpr ⟨r, rfl⟩), htake r]

/-- The sub-account check holds exactly when the child text is a dot-free
head, a dot, then the parent text. -/
theorem is_sub_account_of_iff (c p : AccountIdRef) :
    c.is_sub_account_of p = true ↔
      ∃ pre : List Char, pre.contains '.' = false ∧ c.text = pre ++ '.' :: p.text := by
  unfold AccountIdRef.is_sub_account_of
  constructor
  · intro h
    cases hs : stripSuffix c.text p.text with
    | none => rw [hs] at h; simp at h
    | some s =>
      rw [hs] at h
      replace h : (match stripSuffix s ['.'] with
          | none => false
          | some s2 => !s2.contains '.') = true := h
      cases hs2 : stripSuffix s ['.'] with
      | none => rw [hs2] at h; simp at h
      | some s2 =>
        rw [hs2] at h
        simp only [Bool.not_eq_true'] at h
        have h1 := stripSuffix_eq_some.mp hs
        have h2 := stripSuffix_eq_some.mp hs2
        refine ⟨s2, h, ?_⟩
        rw [h1, h2]
        simp
  · rintro ⟨pre, hpre, heq⟩
    have h1 : stripSuffix c.text p.text = some (pre ++ ['.']) := by
      rw [stripSuffix_eq_some, heq]
      simp
    have h2 : stripSuffix (pre ++ ['.']) ['.'] = some pre :=
      stripSuffix_eq_some.mpr rfl
    rw [h1]
    show (match stripSuffix (pre ++ ['.']) ['.'] with
        | none => false
        | some s2 => !s2.contains '.') = true
    rw [h2]
    simpa using hpre

/-- Unfolding of the allowed-alphabet test into the character classes. -/
theorem isAllowedChar_iff {c : Char} :
    isAllowedChar c = true ↔
      ('a' ≤ c ∧ c ≤ 'z') ∨ ('0' ≤ c ∧ c ≤ '9') ∨ c = '-' ∨ c = '_' ∨ c = '.' := by
  simp [isAllowedChar, isSeparator, or_assoc]

/-- What a successful character scan guarantees about the remaining
characters: every one is in the alphabet, no separator sits at global
index 0 or len - 1, the head is no separator when the previous character
was one, and no two neighbouring characters are both separators. -/
theorem scanChars_ok_spec (l : List Char) (i len : Nat) (prev : Bool)
    (h : scanChars l i len prev = Except.ok ()) :
    (∀ c ∈ l, isAllowedChar c = true)
    ∧ (∀ j (hj : j < l.length), isSeparator (l.get ⟨j, hj⟩) = true →
        i + j ≠ 0 ∧ i + j ≠ len - 1)
    ∧ (prev = true → ∀ h0 : 0 < l.length, isSeparator (l.get ⟨0, h0⟩) = false)
    ∧ (∀ j (hj : j + 1 < l.length), isSeparator (l.get ⟨j, Nat.lt_of_succ_lt hj⟩) = true →
        isSeparator (l.get ⟨j + 1, hj⟩) = false) := by
  induction l generalizing i prev with
  | nil =>
    refine ⟨by simp, ?_, ?_, ?_⟩
    · intro j hj
      simp at hj
    · intro _ h0
      simp at h0
    · intro j hj
      simp at hj
  | cons c rest ih =>
    unfold scanChars at h
    split at h
    · exact absurd h (by simp)
    · split at h
      · exact absurd h (by simp)
      · rename_i hAllow hCond
        have hAllowed : isAllowedChar c = true := by
          cases hx : isAllowedChar c with
          | false => exact absurd hx hAllow
          | true => rfl
        obtain ⟨ih1, ih2, ih3, ih4⟩ := ih (i + 1) (isSeparator c) h
        have hNotAll : isSeparator c = true → ¬(i = 0 ∨ i = len - 1 ∨ prev = true) :=
          fun hsep hor => hCond ⟨hsep, hor⟩
        refine ⟨?_, ?_, ?_, ?_⟩
        · intro a ha
          rcases List.mem_cons.mp ha with rfl | ha2
          · exact hAllowed
          · exact ih1 a ha2
        · intro j hj hsep
          cases j with
          | zero =>
            have hi := hNotAll hsep
            push_neg at hi
            exact ⟨by simpa using hi.1, by simpa using hi.2.1⟩
          | succ j =>
            have hj' : j < rest.length := Nat.lt_of_succ_lt_succ hj
            have := ih2 j hj' (by simpa using hsep)
            constructor
            · intro hz
              exact this.1 (by omega)
            · intro hz
              exact this.2 (by omega)
        · intro hprev h0
          cases hx : isSeparator ((c :: rest).get ⟨0, h0⟩) with
          | false => rfl
          | true =>
            have hsep : isSeparator c = true := by simpa using hx
            exact absurd (Or.inr (Or.inr hprev)) (hNotAll hsep)
        · intro j hj hsep
          cases j with
          | zero =>
            have hsepc : isSeparator c = true := by simpa using hsep
            have h0 : 0 < rest.length := by
              have := hj
              simp at this
              omega
            have := ih3 hsepc h0
            simpa using this
          | succ j =>
            have hj' : j + 1 < rest.length := by
              have := hj
              simp at this
              omega
            have := ih4 j hj' (by simpa using hsep)
            simpa using this

/-- strCmp returns eq exactly on equal lists. -/
theorem strCmp_eq_eq_iff : ∀ x y : List Char, strCmp x y = Ordering.eq ↔ x = y
  | [], [] => by simp [strCmp]
  | [], b :: ys => by simp [strCmp]
  | x :: xs, [] => by simp [strCmp]
  | x :: xs, y :: ys => by
    unfold strCmp
    rcases lt_trichotomy x y with h | h | h
    · simp [h, ne_of_lt h]
    · subst h
      simp [lt_irrefl, strCmp_eq_eq_iff xs ys]
    · simp [h, not_lt_of_gt h, (ne_of_lt h).symm]

/-- strCmp is antisymmetric: the order flips with the arguments. -/
theorem strCmp_lt_iff_gt : ∀ x y : List Char, strCmp x y = Ordering.lt ↔ strCmp y x = Ordering.gt
  | [], [] => by simp [strCmp]
  | [], b :: ys => by simp [strCmp]
  | x :: xs, [] => by simp [strCmp]
  | x :: xs, y :: ys => by
    unfold strCmp
    rcases lt_trichotomy x y with h | h | h
    · simp [h, lt_asymm h]
    · subst h
      simp [lt_irrefl, strCmp_lt_iff_gt xs ys]
    · simp [h, lt_asymm h]

/-!  Claim theorems.  -/

/-- C1: for validated identifiers c and p, is_sub_account_of returns true
exactly when the text of c is a dot-free head, then a dot, then the text
of p; on the concrete examples, app.alice.near is a sub-account of
alice.near but not of near, so the relation is direct-only. -/
theorem sub_account_of_iff_direct_child (c p : AccountIdRef)
    (hc : validate c.text = Except.ok ()) (hp : validate p.text = Except.ok ()) :
    (c.is_sub_account_of p = true ↔
      ∃ pre : List Char, pre.contains '.' = false ∧ c.text = pre ++ '.' :: p.text)
    ∧ (AccountIdRef.new_unchecked (String.toList "app.alice.near")).is_sub_account_of
        (AccountIdRef.new_unchecked (String.toList "alice.near")) = true
    ∧ (AccountIdRef.new_unchecked (String.toList "app.alice.near")).is_sub_account_of
        (AccountIdRef.new_unchecked (String.toList "near")) = false :=
  ⟨is_sub_account_of_iff c p, by decide, by decide⟩

/-- Witness for C1 at the pair (app.alice.near, alice.near). -/
theorem sub_account_of_iff_direct_child_witness :
    validate (AccountIdRef.new_unchecked (String.toList "app.alice.near")).text = Except.ok ()
    ∧ validate (AccountIdRef.new_unchecked (String.toList "alice.near")).text = Except.ok ()
    ∧ ((AccountIdRef.new_unchecked (String.toList "app.alice.near")).is_sub_account_of
          (AccountIdRef.new_unchecked (String.toList "alice.near")) = true ↔
        ∃ pre : List Char, pre.contains '.' = false ∧
          (AccountIdRef.new_unchecked (String.toList "app.alice.near")).text
            = pre ++ '.' :: (AccountIdRef.new_unchecked (String.toList "alice.near")).text) :=
  ⟨rfl, rfl, (sub_account_of_iff_direct_child
    (AccountIdRef.new_unchecked (String.toList "app.alice.near"))
    (AccountIdRef.new_unchecked (String.toList "alice.near")) rfl rfl).1⟩

/-- C2: the checked constructor succeeds exactly when validation succeeds,
passes the validation error through unchanged, and the produced view reads
back the input text exactly. -/
theorem new_agrees_with_validate (s : List Char) :
    (validate s = Except.ok () → AccountIdRef.new s = Except.ok (AccountIdRef.mk s))
    ∧ (∀ e, validate s = Except.error e → AccountIdRef.new s = Except.error e)
    ∧ (∀ v, AccountIdRef.new s = Except.ok v → validate s = Except.ok () ∧ v.as_str = s) := by
  refine ⟨?_, ?_, ?_⟩
  · intro h
    unfold AccountIdRef.new
    rw [h]
  · intro e h
    unfold AccountIdRef.new
    rw [h]
  · intro v hv
    unfold AccountIdRef.new at hv
    cases h : validate s with
    | ok u =>
      cases u
      rw [h] at hv
      replace hv : Except.ok (AccountIdRef.mk s) = Except.ok v := hv
      injection hv with hv
      subst hv
      exact ⟨rfl, rfl⟩
    | error e =>
      rw [h] at hv
      replace hv : (Except.error e : Except ParseAccountError AccountIdRef) = Except.ok v := hv
      exact absurd hv (by simp)

/-- Witness for C2 at a valid and an invalid input. -/
theorem new_agrees_with_validate_witness :
    AccountIdRef.new (String.toList "alice.near")
      = Except.ok (AccountIdRef.mk (String.toList "alice.near"))
    ∧ AccountIdRef.new (String.toList "a")
      = Except.error ⟨ParseErrorKind.TooShort, none⟩ :=
  ⟨(new_agrees_with_validate (String.toList "alice.near")).1 rfl,
   (new_agrees_with_validate (String.toList "a")).2.1 ⟨ParseErrorKind.TooShort, none⟩ rfl⟩

/-- C3: for a validated identifier, is_top_level holds exactly when the
text is not the literal system account and contains no dot; in particular
the system account itself, though dot-free, is not top-level. -/
theorem top_level_iff_not_system_and_dot_free (v : AccountIdRef)
    (hv : validate v.text = Except.ok ()) :
    (v.is_top_level = true ↔ v.text ≠ systemId ∧ v.text.contains '.' = false)
    ∧ (AccountIdRef.new_unchecked systemId).is_top_level = false
    ∧ systemId.contains '.' = false := by
  refine ⟨?_, by decide, by decide⟩
  unfold AccountIdRef.is_top_level AccountIdRef.is_system
  simp only [Bool.and_eq_true, Bool.not_eq_true', beq_eq_false_iff_ne, ne_eq]

/-- Witness for C3 at the identifier near. -/
theorem top_level_iff_not_system_and_dot_free_witness :
    validate (AccountIdRef.new_unchecked (String.toList "near")).text = Except.ok ()
    ∧ ((AccountIdRef.new_unchecked (String.toList "near")).is_top_level = true ↔
        (AccountIdRef.new_unchecked (String.toList "near")).text ≠ systemId
          ∧ (AccountIdRef.new_unchecked (String.toList "near")).text.contains '.' = false) :=
  ⟨rfl, (top_level_iff_not_system_and_dot_free
    (AccountIdRef.new_unchecked (String.toList "near")) rfl).1⟩

/-- C4: for a validated identifier, is_implicit holds exactly when the
text is 64 characters long and every character is a lowercase hexadecimal
digit. -/
theorem implicit_iff_64_lowercase_hex (v : AccountIdRef)
    (hv : validate v.text = Except.ok ()) :
    v.is_implicit = true ↔
      v.text.length = 64 ∧ ∀ c ∈ v.text, ('0' ≤ c ∧ c ≤ '9') ∨ ('a' ≤ c ∧ c ≤ 'f') := by
  unfold AccountIdRef.is_implicit
  simp only [Bool.and_eq_true, beq_iff_eq, List.all_eq_true, isLowerHexDigit,
    decide_eq_true_eq]
  constructor
  · rintro ⟨h1, h2⟩
    exact ⟨h1, fun c hc => Or.symm (h2 c hc)⟩
  · rintro ⟨h1, h2⟩
    exact ⟨h1, fun c hc => Or.symm (h2 c hc)⟩

/-- Witness for C4 at a concrete 64-character lowercase hex identifier. -/
theorem implicit_iff_64_lowercase_hex_witness :
    validate (AccountIdRef.new_unchecked (String.toList
        "0123456789abcdef0123456789abcdef0123456789abcdef0123456789abcdef")).text
      = Except.ok ()
    ∧ ((AccountIdRef.new_unchecked (String.toList
        "0123456789abcdef0123456789abcdef0123456789abcdef0123456789abcdef")).is_implicit = true ↔
        (AccountIdRef.new_unchecked (String.toList
          "0123456789abcdef0123456789abcdef0123456789abcdef0123456789abcdef")).text.length = 64
        ∧ ∀ c ∈ (AccountIdRef.new_unchecked (String.toList
            "0123456789abcdef0123456789abcdef0123456789abcdef0123456789abcdef")).text,
            ('0' ≤ c ∧ c ≤ '9') ∨ ('a' ≤ c ∧ c ≤ 'f')) :=
  ⟨rfl, implicit_iff_64_lowercase_hex (AccountIdRef.new_unchecked (String.toList
    "0123456789abcdef0123456789abcdef0123456789abcdef0123456789abcdef")) rfl⟩

/-- C5: every string accepted by validation satisfies the structural
invariants: length within the bounds, only lowercase letters, digits and
the three separators, no separator at either end, and no two adjacent
separators. -/
theorem validate_ok_invariants (s : List Char) (h : validate s = Except.ok ()) :
    MIN_LEN ≤ s.length ∧ s.length ≤ MAX_LEN
    ∧ (∀ c ∈ s, ('a' ≤ c ∧ c ≤ 'z') ∨ ('0' ≤ c ∧ c ≤ '9') ∨ c = '-' ∨ c = '_' ∨ c = '.')
    ∧ (∀ j (hj : j < s.length), (j = 0 ∨ j = s.length - 1) →
        isSeparator (s.get ⟨j, hj⟩) = false)
    ∧ (∀ j (hj : j + 1 < s.length),
        ¬(isSeparator (s.get ⟨j, Nat.lt_of_succ_lt hj⟩) = true
          ∧ isSeparator (s.get ⟨j + 1, hj⟩) = true)) := by
  unfold validate at h
  split at h
  · exact absurd h (by simp)
  · split at h
    · exact absurd h (by simp)
    · rename_i hmin hmax
      obtain ⟨p1, p2, _, p4⟩ := scanChars_ok_spec s 0 s.length false h
      refine ⟨Nat.le_of_not_lt hmin, Nat.le_of_not_lt hmax, ?_, ?_, ?_⟩
      · intro c hc
        exact isAllowedChar_iff.mp (p1 c hc)
      · intro j hj hor
        cases hx : isSeparator (s.get ⟨j, hj⟩) with
        | false => rfl
        | true =>
          obtain ⟨hne0, hneL⟩ := p2 j hj hx
          rcases hor with rfl | rfl
          · exact absurd (by omega) hne0
          · exact absurd (by omega) hneL
      · rintro j hj ⟨ha, hb⟩
        have hflip := p4 j hj ha
        rw [hflip] at hb
        simp at hb

/-- Witness for C5 at the identifier alice.near. -/
theorem validate_ok_invariants_witness :
    validate (String.toList "alice.near") = Except.ok ()
    ∧ MIN_LEN ≤ (String.toList "alice.near").length :=
  ⟨rfl, (validate_ok_invariants (String.toList "alice.near") rfl).1⟩

/-- C6: converting a validated borrowed view to an owned identifier keeps
the text unchanged, and the From conversion agrees with to_owned. -/
theorem to_owned_preserves_text (v : AccountIdRef)
    (hv : validate v.text = Except.ok ()) :
    (v.to_owned).text = v.text ∧ AccountId.from_ref v = v.to_owned :=
  ⟨rfl, rfl⟩

/-- Witness for C6 at the identifier alice.near. -/
theorem to_owned_preserves_text_witness :
    validate (AccountIdRef.new_unchecked (String.toList "alice.near")).text = Except.ok ()
    ∧ ((AccountIdRef.new_unchecked (String.toList "alice.near")).to_owned).text
        = (AccountIdRef.new_unchecked (String.toList "alice.near")).text :=
  ⟨rfl, (to_owned_preserves_text
    (AccountIdRef.new_unchecked (String.toList "alice.near")) rfl).1⟩

/-- C7: for validated identifiers, every provided comparison direction
agrees with byte (here character) equality and lexicographic ordering of
the underlying texts: the derived equality and ordering on views, and the
mixed comparisons against raw text in both argument orders. -/
theorem comparisons_agree_with_text (a b : AccountIdRef) (s : List Char)
    (ha : validate a.text = Except.ok ()) (hb : validate b.text = Except.ok ()) :
    (AccountIdRef.beq a b = true ↔ a.text = b.text)
    ∧ (a.cmp b = strCmp a.text b.text)
    ∧ (a.cmp b = Ordering.eq ↔ a.text = b.text)
    ∧ (a.cmp b = Ordering.lt ↔ b.cmp a = Ordering.gt)
    ∧ (eqStringRef s a = eqRefString a s)
    ∧ (eqRefString a s = true ↔ a.text = s)
    ∧ (eqStringRef s a = true ↔ s = a.text)
    ∧ (cmpStringRef s a = strCmp s a.text)
    ∧ (cmpRefString a s = strCmp a.text s)
    ∧ (cmpRefString a s = Ordering.eq ↔ a.text = s) := by
  refine ⟨?_, rfl, ?_, ?_, ?_, ?_, ?_, rfl, rfl, ?_⟩
  · simp [AccountIdRef.beq]
  · exact strCmp_eq_eq_iff a.text b.text
  · exact strCmp_lt_iff_gt a.text b.text
  · exact Bool.beq_comm
  · simp [eqRefString]
  · simp [eqStringRef]
  · exact strCmp_eq_eq_iff a.text s

/-- Witness for C7 at the identifiers alice.near and bob.near against the
raw text near. -/
theorem comparisons_agree_with_text_witness :
    validate (AccountIdRef.new_unchecked (String.toList "alice.near")).text = Except.ok ()
    ∧ validate (AccountIdRef.new_unchecked (String.toList "bob.near")).text = Except.ok ()
    ∧ (AccountIdRef.new_unchecked (String.toList "alice.near")).cmp
        (AccountIdRef.new_unchecked (String.toList "bob.near"))
        = strCmp (AccountIdRef.new_unchecked (String.toList "alice.near")).text
            (AccountIdRef.new_unchecked (String.toList "bob.near")).text :=
  ⟨rfl, rfl,
    (comparisons_agree_with_text (AccountIdRef.new_unchecked (String.toList "alice.near"))
      (AccountIdRef.new_unchecked (String.toList "bob.near"))
      (String.toList "near") rfl rfl).2.1⟩

/-- C8: the unchecked constructor performs no validation and returns a
view reading back the input exactly, also on an input that validation
rejects. -/
theorem new_unchecked_skips_validation (s : List Char) :
    (AccountIdRef.new_unchecked s).as_str = s
    ∧ validate (String.toList "invalid.")
        = Except.error ⟨ParseErrorKind.RedundantSeparator, some (7, '.')⟩
    ∧ (AccountIdRef.new_unchecked (String.toList "invalid.")).as_str
        = String.toList "invalid." :=
  ⟨rfl, rfl, rfl⟩

/-- C9: an implicit identifier is always top-level: 64 lowercase hex
characters contain no dot and cannot spell the system account. -/
theorem implicit_implies_top_level (v : AccountIdRef)
    (h : v.is_implicit = true) :
    v.is_top_level = true := by
  unfold AccountIdRef.is_implicit at h
  simp only [Bool.and_eq_true, beq_iff_eq, List.all_eq_true] at h
  obtain ⟨hlen, hall⟩ := h
  unfold AccountIdRef.is_top_level AccountIdRef.is_system
  simp only [Bool.and_eq_true, Bool.not_eq_true', beq_eq_false_iff_ne, ne_eq]
  constructor
  · intro heq
    have hl := congrArg List.length heq
    rw [hlen] at hl
    have hsys : systemId.length = 6 := rfl
    omega
  · cases hx : v.text.contains '.' with
    | false => rfl
    | true =>
      have hmem : '.' ∈ v.text := by simpa using hx
      have hhex := hall '.' hmem
      exact absurd hhex (by decide)

/-- Witness for C9 at a concrete 64-character lowercase hex identifier. -/
theorem implicit_implies_top_level_witness :
    (AccountIdRef.new_unchecked (String.toList
        "0123456789abcdef0123456789abcdef0123456789abcdef0123456789abcdef")).is_implicit = true
    ∧ (AccountIdRef.new_unchecked (String.toList
        "0123456789abcdef0123456789abcdef0123456789abcdef0123456789abcdef")).is_top_level
        = true :=
  ⟨by decide, implicit_implies_top_level (AccountIdRef.new_unchecked (String.toList
    "0123456789abcdef0123456789abcdef0123456789abcdef0123456789abcdef")) (by decide)⟩

/-- C10: an identifier is never a sub-account of an identifier with the
same text, itself included. -/
theorem not_sub_account_of_equal_text (c p : AccountIdRef)
    (h : c.text = p.text) :
    c.is_sub_account_of p = false := by
  cases hx : c.is_sub_account_of p with
  | false => rfl
  | true =>
    obtain ⟨pre, hpre, heq⟩ := (is_sub_account_of_iff c p).mp hx
    rw [h] at heq
    have hl := congrArg List.length heq
    simp [List.length_append] at hl
    omega

/-- Witness for C10 at the identifier alice.near against itself. -/
theorem not_sub_account_of_equal_text_witness :
    (AccountIdRef.new_unchecked (String.toList "alice.near")).text
      = (AccountIdRef.new_unchecked (String.toList "alice.near")).text
    ∧ (AccountIdRef.new_unchecked (String.toList "alice.near")).is_sub_account_of
        (AccountIdRef.new_unchecked (String.toList "alice.near")) = false :=
  ⟨rfl, not_sub_account_of_equal_text
    (AccountIdRef.new_unchecked (String.toList "alice.near"))
    (AccountIdRef.new_unchecked (String.toList "alice.near")) rfl⟩

end NearAccountId
